import Mathlib

/-!
Shallow embedding of `src/quantum.py`: a finite-difference integrator for the
2D Schrödinger equation with dissipation.

The wave function `F` is stored in the source as a `(2, Lx, Ly)` float64 array
(`F[0]` the real part, `F[1]` the imaginary part).  We embed such an array as a
pair of functions `ℕ → ℕ → α` together with the dimensions `Lx`, `Ly`
(cells outside the dimensions are irrelevant; all aggregate operations sum
over `x < Lx`, `y < Ly`).  Exact float64 rounding is not modelled: arithmetic
is over a commutative ring (instantiated at `ℚ` for computations and at `ℝ`
where `sqrt` is needed).
-/

/-- A scalar grid (the source 2D float64 arrays `V` and `B`). -/
def SGrid (α : Type) : Type := ℕ → ℕ → α

/-- A complex grid: the source `(2, Lx, Ly)` array, `re` = `F[0]`, `im` = `F[1]`. -/
structure CGrid (α : Type) where
  re : ℕ → ℕ → α
  im : ℕ → ℕ → α

namespace Quantum

variable {α : Type}

/-- Per-cell addition of complex grids (numpy `+` on `(2,Lx,Ly)` arrays). -/
def cadd [Add α] (F G : CGrid α) : CGrid α :=
  ⟨fun x y => F.re x y + G.re x y, fun x y => F.im x y + G.im x y⟩

/-- Per-cell scalar multiple of a complex grid (numpy `c*F` for a scalar `c`). -/
def csmul [Mul α] (c : α) (F : CGrid α) : CGrid α :=
  ⟨fun x y => c * F.re x y, fun x y => c * F.im x y⟩

/-- Per-cell division of a complex grid by one scalar (numpy `F/c`). -/
def cdiv [Div α] (F : CGrid α) (c : α) : CGrid α :=
  ⟨fun x y => F.re x y / c, fun x y => F.im x y / c⟩

/-- Per-cell subtraction of complex grids (numpy `-` on `(2,Lx,Ly)` arrays). -/
def csub [Sub α] (F G : CGrid α) : CGrid α :=
  ⟨fun x y => F.re x y - G.re x y, fun x y => F.im x y - G.im x y⟩

/-- Per-cell product of a complex grid with a scalar on the right
(numpy `F*c`), as in the source `dFdt*dt`. -/
def cmuls [Mul α] (F : CGrid α) (c : α) : CGrid α :=
  ⟨fun x y => F.re x y * c, fun x y => F.im x y * c⟩

/-- Per-cell negation of a complex grid (numpy `-F`). -/
def cneg [Neg α] (F : CGrid α) : CGrid α :=
  ⟨fun x y => -F.re x y, fun x y => -F.im x y⟩

/-- Per-cell product of a scalar grid with a complex grid: numpy broadcasting
of `V*F` where `V` has shape `(Lx,Ly)` and `F` has shape `(2,Lx,Ly)`, as in
the source `V*F` and `B*F`. -/
def smulGrid [Mul α] (V : SGrid α) (F : CGrid α) : CGrid α :=
  ⟨fun x y => V x y * F.re x y, fun x y => V x y * F.im x y⟩

/-- Source line 40: `over_j = lambda F: np.array((F[1], -F[0]))`. -/
def over_j [Neg α] (F : CGrid α) : CGrid α :=
  ⟨fun x y => F.im x y, fun x y => -F.re x y⟩

/-- Source line 41: `amp = lambda F: np.sum(F**2, axis=0)` (per-cell squared
magnitude). -/
def amp [Mul α] [Add α] (F : CGrid α) : SGrid α :=
  fun x y => F.re x y * F.re x y + F.im x y * F.im x y

/-- the OpenCV `BORDER_REFLECT_101` index folding (`gfedcb|abcdefgh|gfedcba`),
the default border mode of `cv2.Laplacian`: index `-i` maps to `i`, and index
`n-1+i` maps to `n-1-i`.  Total as a function `ℤ → ℕ`; `cv2.Laplacian` with a
3×3 aperture only ever evaluates it on `-1 ≤ i ≤ n`. -/
def refl101 (n : ℕ) (i : ℤ) : ℕ :=
  (if i < 0 then -i else if (n : ℤ) ≤ i then 2 * ((n : ℤ) - 1) - i else i).toNat

/-- One channel of `cv2.Laplacian(·, cv2.CV_64F)` with the default `ksize=1`:
correlation with the 3×3 aperture `[[0,1,0],[1,-4,1],[0,1,0]]`, borders
handled by `BORDER_DEFAULT = BORDER_REFLECT_101` (modelled from the OpenCV
documentation; OpenCV itself is an external dependency of the source). -/
def lap [CommRing α] (Lx Ly : ℕ) (g : ℕ → ℕ → α) : ℕ → ℕ → α :=
  fun x y =>
    g (refl101 Lx ((x : ℤ) - 1)) y + g (refl101 Lx ((x : ℤ) + 1)) y +
      g x (refl101 Ly ((y : ℤ) - 1)) + g x (refl101 Ly ((y : ℤ) + 1)) -
      4 * g x y

/-- Source line 39: `claplacian = lambda F: np.array((cv2.Laplacian(F[0],
cv2.CV_64F), cv2.Laplacian(F[1], cv2.CV_64F)))` — the stencil applied
independently to the real and imaginary channels. -/
def claplacian [CommRing α] (Lx Ly : ℕ) (F : CGrid α) : CGrid α :=
  ⟨lap Lx Ly F.re, lap Lx Ly F.im⟩

/-- Sum of squares of all entries of the flattened `(2,Lx,Ly)` array: the square
of `npl.norm(F)` (the Frobenius norm numpy computes for a 3D array with no
`axis` argument). -/
def norm2 [CommRing α] (Lx Ly : ℕ) (F : CGrid α) : α :=
  ∑ x ∈ Finset.range Lx, ∑ y ∈ Finset.range Ly,
    (F.re x y ^ 2 + F.im x y ^ 2)

/-- `npl.norm(F)`: the L2 norm of the flattened array. -/
noncomputable def fnorm (Lx Ly : ℕ) (F : CGrid ℝ) : ℝ :=
  Real.sqrt (norm2 Lx Ly F)

/-- Source line 38: `normalize = lambda F: F/npl.norm(F)` — every cell divided
by the L2 norm of the whole field. -/
noncomputable def normalize (Lx Ly : ℕ) (F : CGrid ℝ) : CGrid ℝ :=
  cdiv F (fnorm Lx Ly F)

/-- Source line 93: `dFdt = over_j((alph*claplacian(F) + V*F)/hbar) - B*F`. -/
noncomputable def dFdt (Lx Ly : ℕ) (alph hbar : ℝ) (V B : SGrid ℝ)
    (F : CGrid ℝ) : CGrid ℝ :=
  csub (over_j (cdiv (cadd (csmul alph (claplacian Lx Ly F)) (smulGrid V F)) hbar))
    (smulGrid B F)

/-- One integrator step, source lines 93–95:
`dFdt = over_j((alph*claplacian(F) + V*F)/hbar) - B*F`,
`F = F + dFdt*dt`, `F = normalize(F)`.
The grid before renormalization (`F + dFdt*dt`) is split out as `preStep`. -/
noncomputable def preStep (Lx Ly : ℕ) (alph hbar dt : ℝ) (V B : SGrid ℝ)
    (F : CGrid ℝ) : CGrid ℝ :=
  cadd F (cmuls (dFdt Lx Ly alph hbar V B F) dt)

/-- The full step: `normalize(F + dFdt*dt)`. -/
noncomputable def stepF (Lx Ly : ℕ) (alph hbar dt : ℝ) (V B : SGrid ℝ)
    (F : CGrid ℝ) : CGrid ℝ :=
  normalize Lx Ly (preStep Lx Ly alph hbar dt V B F)

/-- The mutable state of the simulation loop: the wave function `F` together
with the setup-time constants `V`, `B` and `dt`. -/
structure SimState where
  F : CGrid ℝ
  V : SGrid ℝ
  B : SGrid ℝ
  dt : ℝ

/-- The per-iteration state update of the loop body (source lines 92–95): the
only assignment is the rebinding of `F`; `V`, `B` and `dt` are read, never
written. -/
noncomputable def loopStep (Lx Ly : ℕ) (alph hbar : ℝ) (s : SimState) : SimState :=
  { s with F := stepF Lx Ly alph hbar s.dt s.V s.B s.F }

/-- Source line 63: `vl_a = int(Ly/2.5)` with `Ly = 50`: Python `int`
truncation of `50/2.5 = 20.0` gives 20. -/
def vl_a : ℕ := 20

/-- Source line 69: the border thickness `bthick = 10`. -/
def bthick : ℕ := 10

/-- Source line 71: the ramp value written by loop iteration `i` of the
dissipation loop, `s = 100*(i/bthick)**3`. -/
def sB (i : ℕ) : ℚ :=
  100 * ((i : ℚ) / (bthick : ℚ)) ^ 3

/-- One iteration of the dissipation-grid loop, source lines 70–75:
`s = 100*(i/bthick)**3`; `B[bthick-1-i, :vl_a] = s`;
`B[-(bthick-1-i)-1, :vl_a] = s`; `B[:, bthick-1-i] = s`
(the commented-out right-edge write `B[:, -(bthick-1-i)-1]` is absent).
Negative-index row `-(bthick-1-i)-1` is row `Lx-(bthick-1-i)-1` with
`Lx = 50`.  The three writes happen in source order; reading a cell therefore
sees the column write first, then the bottom-row write, then the top-row
write, then the prior grid. -/
def bwrite (i : ℕ) (B : SGrid ℚ) : SGrid ℚ := fun r c =>
  if c = bthick - 1 - i then sB i
  else if r = 50 - (bthick - 1 - i) - 1 ∧ c < vl_a then sB i
  else if r = bthick - 1 - i ∧ c < vl_a then sB i
  else B r c

/-- The dissipation grid: `B = np.zeros((Lx, Ly))` followed by the loop
`for i in xrange(bthick)` of writes (source lines 68–75). -/
def Bgrid : SGrid ℚ :=
  (List.range bthick).foldl (fun B i => bwrite i B) (fun _ _ => 0)

/-! Spec-side definitions, written from the wording of the specification, to be
compared against the definitions above that embed the source. -/

/-- Spec-side: genuine per-cell multiplication by the imaginary unit,
`i * (a + b*i) = -b + a*i`, i.e. `result.real = -F.imag`, `result.imag = F.real`.
The spec asserts that `mul_by_i` computes this. -/
def mulByI_spec [Neg α] (F : CGrid α) : CGrid α :=
  ⟨fun x y => -F.im x y, fun x y => F.re x y⟩

/-- Spec-side: the 4-neighbor Laplacian stencil with a zero-pad edge policy
(neighbors outside the grid contribute 0), one of the two policies the spec
allows. -/
def lapZeroPad [CommRing α] (Lx Ly : ℕ) (g : ℕ → ℕ → α) : ℕ → ℕ → α :=
  fun x y =>
    (if x = 0 then 0 else g (x - 1) y) + (if x + 1 = Lx then 0 else g (x + 1) y) +
      (if y = 0 then 0 else g x (y - 1)) + (if y + 1 = Ly then 0 else g x (y + 1)) -
      4 * g x y

/-- Spec-side: the 4-neighbor Laplacian stencil with a replicate/clamp edge
policy (out-of-range indices clamp to the edge cell), the other policy the
spec allows. -/
def lapReplicate [CommRing α] (Lx Ly : ℕ) (g : ℕ → ℕ → α) : ℕ → ℕ → α :=
  fun x y =>
    g (if x = 0 then 0 else x - 1) y + g (if x + 1 = Lx then x else x + 1) y +
      g x (if y = 0 then 0 else y - 1) + g x (if y + 1 = Ly then y else y + 1) -
      4 * g x y

/-- A unit impulse field: 1 in the real channel at cell `(a, b)`, 0 elsewhere
and in the imaginary channel. -/
def impulse [Zero α] [One α] (a b : ℕ) : CGrid α :=
  ⟨fun x y => if x = a ∧ y = b then 1 else 0, fun _ _ => 0⟩

/-- Closed form of the dissipation grid actually built by the source (within
the 50×50 bounds): a 10-cell band along the left edge for every row, and
10-cell bands along the top and bottom edges only for columns `c < vl_a = 20`;
in the overlap corners the write of the later loop iteration wins, which is
the one with the larger ramp index. -/
def amendedB : SGrid ℚ := fun r c =>
  if r ≤ 9 ∧ c < 20 then
    (if c ≤ 9 then sB (max (9 - r) (9 - c)) else sB (9 - r))
  else if 40 ≤ r ∧ c < 20 then
    (if c ≤ 9 then sB (max (r - 40) (9 - c)) else sB (r - 40))
  else if c ≤ 9 then sB (9 - c)
  else 0

/-! Helper lemmas. -/

theorem norm2_nonneg (Lx Ly : ℕ) (F : CGrid ℝ) : 0 ≤ norm2 Lx Ly F := by
  refine Finset.sum_nonneg fun x _ => Finset.sum_nonneg fun y _ => ?_
  positivity

theorem norm2_pos_of_cell {Lx Ly x y : ℕ} {F : CGrid ℝ} (hx : x < Lx) (hy : y < Ly)
    (h : F.re x y ≠ 0 ∨ F.im x y ≠ 0) : 0 < norm2 Lx Ly F := by
  refine Finset.sum_pos' (fun i _ => Finset.sum_nonneg fun j _ => by positivity)
    ⟨x, Finset.mem_range.2 hx, ?_⟩
  refine Finset.sum_pos' (fun j _ => by positivity) ⟨y, Finset.mem_range.2 hy, ?_⟩
  rcases h with h | h
  · exact add_pos_of_pos_of_nonneg (pow_two_pos_of_ne_zero h) (sq_nonneg _)
  · exact add_pos_of_nonneg_of_pos (sq_nonneg _) (pow_two_pos_of_ne_zero h)

theorem norm2_cdiv (Lx Ly : ℕ) (F : CGrid ℝ) (c : ℝ) :
    norm2 Lx Ly (cdiv F c) = norm2 Lx Ly F / c ^ 2 := by
  simp only [norm2, cdiv, div_pow, ← add_div, ← Finset.sum_div]

theorem norm2_normalize (Lx Ly : ℕ) (F : CGrid ℝ) (h : norm2 Lx Ly F ≠ 0) :
    norm2 Lx Ly (normalize Lx Ly F) = 1 := by
  rw [normalize, norm2_cdiv, fnorm, Real.sq_sqrt (norm2_nonneg Lx Ly F), div_self h]

theorem norm2_csmul (Lx Ly : ℕ) (c : ℝ) (F : CGrid ℝ) :
    norm2 Lx Ly (csmul c F) = c ^ 2 * norm2 Lx Ly F := by
  simp only [norm2, csmul, Finset.mul_sum]
  refine Finset.sum_congr rfl fun x _ => Finset.sum_congr rfl fun y _ => by ring

theorem normalize_csmul (Lx Ly : ℕ) (c : ℝ) (F : CGrid ℝ) (hc : 0 < c) :
    normalize Lx Ly (csmul c F) = normalize Lx Ly F := by
  have hn : fnorm Lx Ly (csmul c F) = c * fnorm Lx Ly F := by
    rw [fnorm, fnorm, norm2_csmul, Real.sqrt_mul (sq_nonneg c), Real.sqrt_sq hc.le]
  unfold normalize
  rw [hn]
  simp only [cdiv, csmul]
  congr 1 <;> funext x y <;> exact mul_div_mul_left _ _ hc.ne'

theorem dFdt_csmul (Lx Ly : ℕ) (alph hbar c : ℝ) (V B : SGrid ℝ) (F : CGrid ℝ) :
    dFdt Lx Ly alph hbar V B (csmul c F) = csmul c (dFdt Lx Ly alph hbar V B F) := by
  simp only [dFdt, over_j, cdiv, cadd, csub, csmul, smulGrid, claplacian, lap]
  congr 1 <;> funext x y <;> ring

theorem preStep_csmul (Lx Ly : ℕ) (alph hbar dt c : ℝ) (V B : SGrid ℝ) (F : CGrid ℝ) :
    preStep Lx Ly alph hbar dt V B (csmul c F) = csmul c (preStep Lx Ly alph hbar dt V B F) := by
  rw [preStep, preStep, dFdt_csmul]
  simp only [cadd, cmuls, csmul]
  congr 1 <;> funext x y <;> ring

/-! The claims. -/

/-- C1: for every complex field `F`, scalar grids `V` and `B`, constants
`alph`, `hbar` and time step `dt > 0`, one integrator step replaces `F` with
`normalize(F + dFdt*dt)` where `dFdt = mul_by_i((alph*laplacian(F) + V*F)/hbar)
- B*F`, with `V*F` and `B*F` per-cell scalar-times-complex products and the
division by `hbar` per-cell scalar division; spelled out per cell and per
channel on the right-hand side. -/
theorem C1_step_formula (Lx Ly : ℕ) (alph hbar dt : ℝ) (V B : SGrid ℝ)
    (F : CGrid ℝ) (hdt : 0 < dt) :
    stepF Lx Ly alph hbar dt V B F =
      normalize Lx Ly
        ⟨fun x y => F.re x y +
            dt * ((alph * lap Lx Ly F.im x y + V x y * F.im x y) / hbar - B x y * F.re x y),
         fun x y => F.im x y +
            dt * (-((alph * lap Lx Ly F.re x y + V x y * F.re x y) / hbar) - B x y * F.im x y)⟩ := by
  unfold stepF preStep dFdt
  congr 1
  simp only [cadd, cmuls, csub, over_j, cdiv, csmul, smulGrid, claplacian]
  congr 1 <;> funext x y <;> simp only [lap] <;> ring

/-- Witness for C1 at `Lx = Ly = 1`, `alph = hbar = dt = 1`, `V = B = 0`,
`F` constant `(1, 0)`. -/
theorem C1_witness :
    (0 : ℝ) < 1 ∧
    stepF 1 1 1 1 1 (fun _ _ => 0) (fun _ _ => 0) ⟨fun _ _ => 1, fun _ _ => 0⟩ =
      normalize 1 1
        ⟨fun x y => 1 + 1 * ((1 * lap 1 1 (fun _ _ => (0 : ℝ)) x y + 0 * 0) / 1 - 0 * 1),
         fun x y => 0 + 1 * (-((1 * lap 1 1 (fun _ _ => (1 : ℝ)) x y + 0 * 1) / 1) - 0 * 0)⟩ :=
  ⟨by norm_num,
    C1_step_formula 1 1 1 1 1 (fun _ _ => 0) (fun _ _ => 0)
      ⟨fun _ _ => 1, fun _ _ => 0⟩ (by norm_num)⟩

/-- C2: after every integrator step whose pre-normalization update is nonzero,
the L2 norm of the resulting field is 1 (sum over all cells of the squared
magnitudes equals 1), regardless of the pre-step norm: the invariant is
re-established by the renormalization inside the step. -/
theorem C2_step_unit_norm (Lx Ly : ℕ) (alph hbar dt : ℝ) (V B : SGrid ℝ)
    (F : CGrid ℝ) (h : norm2 Lx Ly (preStep Lx Ly alph hbar dt V B F) ≠ 0) :
    norm2 Lx Ly (stepF Lx Ly alph hbar dt V B F) = 1 :=
  norm2_normalize Lx Ly _ h

/-- Witness for C2 at `Lx = Ly = 1`, `alph = hbar = dt = 1`, `V = B = 0`,
`F` constant `(1, 0)`. -/
theorem C2_witness :
    norm2 1 1 (preStep 1 1 1 1 1 (fun _ _ => 0) (fun _ _ => 0)
      ⟨fun _ _ => 1, fun _ _ => 0⟩) ≠ 0 ∧
    norm2 1 1 (stepF 1 1 1 1 1 (fun _ _ => 0) (fun _ _ => 0)
      ⟨fun _ _ => 1, fun _ _ => 0⟩) = 1 := by
  have h : norm2 1 1 (preStep 1 1 1 1 1 (fun _ _ => 0) (fun _ _ => 0)
      ⟨fun _ _ => 1, fun _ _ => 0⟩) ≠ 0 := by
    norm_num [norm2, preStep, dFdt, cadd, cmuls, csub, over_j, cdiv, csmul,
      smulGrid, claplacian, lap, Finset.sum_range_one]
  exact ⟨h, C2_step_unit_norm 1 1 1 1 1 _ _ _ h⟩

/-- C3: for every nonzero field `F`, `normalize(F)` divides every cell of `F`
by the L2 norm of `F` (the square root of the sum over all cells of
`real^2 + imag^2`, treating `F` as one flattened vector), and the result has
L2 norm exactly 1 (exact in the real-number model of float arithmetic). -/
theorem C3_normalize_correct (Lx Ly : ℕ) (F : CGrid ℝ)
    (h : ∃ x y, x < Lx ∧ y < Ly ∧ (F.re x y ≠ 0 ∨ F.im x y ≠ 0)) :
    (∀ x y, (normalize Lx Ly F).re x y = F.re x y / Real.sqrt (norm2 Lx Ly F) ∧
      (normalize Lx Ly F).im x y = F.im x y / Real.sqrt (norm2 Lx Ly F)) ∧
    norm2 Lx Ly (normalize Lx Ly F) = 1 := by
  obtain ⟨x, y, hx, hy, hne⟩ := h
  exact ⟨fun _ _ => ⟨rfl, rfl⟩,
    norm2_normalize Lx Ly F (norm2_pos_of_cell hx hy hne).ne'⟩

/-- Witness for C3 at `Lx = Ly = 1` and `F` constant `(2, 0)`. -/
theorem C3_witness :
    (∃ x y, x < 1 ∧ y < 1 ∧
      ((⟨fun _ _ => 2, fun _ _ => 0⟩ : CGrid ℝ).re x y ≠ 0 ∨
        (⟨fun _ _ => 2, fun _ _ => 0⟩ : CGrid ℝ).im x y ≠ 0)) ∧
    ((∀ x y,
        (normalize 1 1 (⟨fun _ _ => 2, fun _ _ => 0⟩ : CGrid ℝ)).re x y =
          (⟨fun _ _ => 2, fun _ _ => 0⟩ : CGrid ℝ).re x y /
            Real.sqrt (norm2 1 1 (⟨fun _ _ => 2, fun _ _ => 0⟩ : CGrid ℝ)) ∧
        (normalize 1 1 (⟨fun _ _ => 2, fun _ _ => 0⟩ : CGrid ℝ)).im x y =
          (⟨fun _ _ => 2, fun _ _ => 0⟩ : CGrid ℝ).im x y /
            Real.sqrt (norm2 1 1 (⟨fun _ _ => 2, fun _ _ => 0⟩ : CGrid ℝ))) ∧
      norm2 1 1 (normalize 1 1 (⟨fun _ _ => 2, fun _ _ => 0⟩ : CGrid ℝ)) = 1) := by
  have hyp : ∃ x y, x < 1 ∧ y < 1 ∧
      ((⟨fun _ _ => 2, fun _ _ => 0⟩ : CGrid ℝ).re x y ≠ 0 ∨
        (⟨fun _ _ => 2, fun _ _ => 0⟩ : CGrid ℝ).im x y ≠ 0) :=
    ⟨0, 0, by norm_num, by norm_num, Or.inl (by norm_num)⟩
  exact ⟨hyp, C3_normalize_correct 1 1 _ hyp⟩

/-- C6 counterexample: on the constant field `1` (real channel 1, imaginary
channel 0), the source `over_j` produces imaginary part `-1`, while genuine
multiplication by the imaginary unit (as the claim states) produces
imaginary part `1`; so `over_j` does not multiply by `i`. -/
theorem C6_counterexample :
    (over_j (⟨fun _ _ => 1, fun _ _ => 0⟩ : CGrid ℚ)).im 0 0 = -1 ∧
    (mulByI_spec (⟨fun _ _ => 1, fun _ _ => 0⟩ : CGrid ℚ)).im 0 0 = 1 ∧
    (over_j (⟨fun _ _ => 1, fun _ _ => 0⟩ : CGrid ℚ)).im 0 0 ≠
      (mulByI_spec (⟨fun _ _ => 1, fun _ _ => 0⟩ : CGrid ℚ)).im 0 0 := by
  refine ⟨by norm_num [over_j], by norm_num [mulByI_spec], by norm_num [over_j, mulByI_spec]⟩

/-- C6 (amended): for every complex field `F`, `over_j` computes per-cell
division by the imaginary unit (equivalently multiplication by `-i`),
implemented as `result.real = F.imag`, `result.imag = -F.real`. -/
theorem C6_over_j_div_I (F : CGrid ℝ) (x y : ℕ) :
    (⟨(over_j F).re x y, (over_j F).im x y⟩ : ℂ) =
      (⟨F.re x y, F.im x y⟩ : ℂ) / Complex.I := by
  rw [Complex.div_I]
  apply Complex.ext <;> simp [over_j]

/-- C7: applying `over_j` twice negates both channels:
`over_j (over_j F) = -F` exactly, for every complex field `F`. -/
theorem C7_over_j_twice (F : CGrid ℝ) : over_j (over_j F) = cneg F := rfl

/-- C8: the Laplacian is linear: for all scalars `a`, `b` and fields `F1`,
`F2`, `laplacian(a*F1 + b*F2) = a*laplacian(F1) + b*laplacian(F2)` (exact in
the real-number model of float arithmetic). -/
theorem C8_laplacian_linear (Lx Ly : ℕ) (a b : ℝ) (F1 F2 : CGrid ℝ) :
    claplacian Lx Ly (cadd (csmul a F1) (csmul b F2)) =
      cadd (csmul a (claplacian Lx Ly F1)) (csmul b (claplacian Lx Ly F2)) := by
  simp only [claplacian, cadd, csmul]
  congr 1 <;> funext x y <;> simp only [lap] <;> ring

/-- C9: the loop body (source lines 92–95) leaves `V`, `B` and `dt` unchanged
and its only effect is to replace `F` with the stepped field. -/
theorem C9_frame (Lx Ly : ℕ) (alph hbar : ℝ) (s : SimState) :
    (loopStep Lx Ly alph hbar s).V = s.V ∧
    (loopStep Lx Ly alph hbar s).B = s.B ∧
    (loopStep Lx Ly alph hbar s).dt = s.dt ∧
    (loopStep Lx Ly alph hbar s).F = stepF Lx Ly alph hbar s.dt s.V s.B s.F :=
  ⟨rfl, rfl, rfl, rfl⟩

/-- C10: the integrator step is invariant under positive rescaling of its
input: for `c > 0` (and nonzero post-update field), stepping `c*F` produces
the same renormalized field as stepping `F`. -/
theorem C10_scale_invariant (Lx Ly : ℕ) (alph hbar dt c : ℝ) (V B : SGrid ℝ)
    (F : CGrid ℝ) (hc : 0 < c)
    (h : norm2 Lx Ly (preStep Lx Ly alph hbar dt V B (csmul c F)) ≠ 0) :
    stepF Lx Ly alph hbar dt V B (csmul c F) = stepF Lx Ly alph hbar dt V B F := by
  unfold stepF
  rw [preStep_csmul, normalize_csmul _ _ _ _ hc]

/-- Witness for C10 at `Lx = Ly = 1`, `alph = hbar = dt = 1`, `V = B = 0`,
`c = 2`, `F` constant `(1, 0)`. -/
theorem C10_witness :
    (0 : ℝ) < 2 ∧
    norm2 1 1 (preStep 1 1 1 1 1 (fun _ _ => 0) (fun _ _ => 0)
      (csmul 2 ⟨fun _ _ => 1, fun _ _ => 0⟩)) ≠ 0 ∧
    stepF 1 1 1 1 1 (fun _ _ => 0) (fun _ _ => 0)
        (csmul 2 ⟨fun _ _ => 1, fun _ _ => 0⟩) =
      stepF 1 1 1 1 1 (fun _ _ => 0) (fun _ _ => 0) ⟨fun _ _ => 1, fun _ _ => 0⟩ := by
  have h : norm2 1 1 (preStep 1 1 1 1 1 (fun _ _ => 0) (fun _ _ => 0)
      (csmul 2 ⟨fun _ _ => 1, fun _ _ => 0⟩)) ≠ 0 := by
    norm_num [norm2, preStep, dFdt, cadd, cmuls, csub, over_j, cdiv, csmul,
      smulGrid, claplacian, lap, Finset.sum_range_one]
  exact ⟨by norm_num, h,
    C10_scale_invariant 1 1 1 1 1 2 (fun _ _ => 0) (fun _ _ => 0)
      ⟨fun _ _ => 1, fun _ _ => 0⟩ (by norm_num) h⟩

/-- The ten loop iterations of the dissipation-grid construction, unfolded. -/
theorem Bgrid_eq :
    Bgrid = bwrite 9 (bwrite 8 (bwrite 7 (bwrite 6 (bwrite 5 (bwrite 4
      (bwrite 3 (bwrite 2 (bwrite 1 (bwrite 0 (fun _ _ => 0)))))))))) :=
  rfl

/-- Reading one loop iteration of the dissipation construction: the cell holds
the ramp value `sB i` when any of the three writes of iteration `i` hits it,
otherwise the value from the previous iterations. -/
theorem bwrite_eval (i : ℕ) (B : SGrid ℚ) (r c : ℕ) :
    bwrite i B r c =
      if c = bthick - 1 - i ∨ (r = 50 - (bthick - 1 - i) - 1 ∧ c < vl_a) ∨
          (r = bthick - 1 - i ∧ c < vl_a) then sB i
      else B r c := by
  unfold bwrite
  split_ifs <;> first | rfl | (exfalso; omega)

theorem refl101_sub_one (n t w : ℕ) (hw : w < n) (ht : 2 ≤ t) :
    refl101 n ((w : ℤ) - 1) = t ↔ w = t + 1 := by
  unfold refl101
  split_ifs <;> omega

theorem refl101_add_one (n t w : ℕ) (hw : w < n) (ht : t + 3 ≤ n) :
    refl101 n ((w : ℤ) + 1) = t ↔ w + 1 = t := by
  unfold refl101
  split_ifs <;> omega

/-- C4 counterexample: on a 5×5 grid, a unit impulse at the interior cell
`(1, 2)` gives Laplacian output `2` at the 4-neighbor `(0, 2)` — not the `+1`
the claim states — whereas both edge policies the claim allows (zero-pad and
replicate/clamp) would give `1` there: the code uses the OpenCV default
reflect-101 border, which doubles the reflected neighbor. -/
theorem C4_counterexample :
    (claplacian 5 5 (impulse (α := ℚ) 1 2)).re 0 2 = 2 ∧
    lapZeroPad 5 5 (impulse (α := ℚ) 1 2).re 0 2 = 1 ∧
    lapReplicate 5 5 (impulse (α := ℚ) 1 2).re 0 2 = 1 := by
  refine ⟨?_, ?_, ?_⟩ <;>
    norm_num [claplacian, lap, impulse, refl101, lapZeroPad, lapReplicate]

/-- C4 (amended): `claplacian` applies the 4-neighbor stencil independently to
the two channels with the OpenCV default reflect-101 border policy; for a unit
impulse at an interior cell at distance at least 2 from every edge, only the
impulse cell and its 4 neighbors receive nonzero output, with center weight
`-4` and neighbor weight `+1` (cells nearer the border get the reflected
weights instead, as the counterexample shows). -/
theorem C4_impulse_stencil (Lx Ly a b u v : ℕ)
    (ha1 : 2 ≤ a) (ha2 : a + 3 ≤ Lx) (hb1 : 2 ≤ b) (hb2 : b + 3 ≤ Ly)
    (hu : u < Lx) (hv : v < Ly) :
    (claplacian Lx Ly (impulse (α := ℚ) a b)).im u v = 0 ∧
    (claplacian Lx Ly (impulse (α := ℚ) a b)).re u v =
      (if u = a ∧ v = b then -4
       else if (u = a + 1 ∧ v = b) ∨ (u + 1 = a ∧ v = b) ∨
              (u = a ∧ v = b + 1) ∨ (u = a ∧ v + 1 = b) then 1
       else 0) := by
  constructor
  · simp only [claplacian, impulse, lap]
    ring
  · simp only [claplacian, impulse, lap,
      refl101_sub_one Lx a u hu ha1, refl101_add_one Lx a u hu ha2,
      refl101_sub_one Ly b v hv hb1, refl101_add_one Ly b v hv hb2]
    split_ifs <;> first | (exfalso; omega) | norm_num

/-- Witness for C4 (amended) at a 7×7 grid, impulse at `(3, 3)`, output cell
`(4, 3)` (a down-neighbor, weight `+1`). -/
theorem C4_witness :
    (2 ≤ 3 ∧ 3 + 3 ≤ 7 ∧ (4 : ℕ) < 7 ∧ (3 : ℕ) < 7) ∧
    ((claplacian 7 7 (impulse (α := ℚ) 3 3)).im 4 3 = 0 ∧
      (claplacian 7 7 (impulse (α := ℚ) 3 3)).re 4 3 =
        (if (4 : ℕ) = 3 ∧ (3 : ℕ) = 3 then -4
         else if ((4 : ℕ) = 3 + 1 ∧ (3 : ℕ) = 3) ∨ (4 + 1 = 3 ∧ (3 : ℕ) = 3) ∨
                ((4 : ℕ) = 3 ∧ (3 : ℕ) = 3 + 1) ∨ ((4 : ℕ) = 3 ∧ 3 + 1 = 3) then 1
         else 0)) :=
  ⟨by omega,
    C4_impulse_stencil 7 7 3 3 4 3 (by omega) (by omega) (by omega) (by omega)
      (by omega) (by omega)⟩

/-- C5 counterexample: the cells `(0, 10)` and `(0, 30)` both lie on the top
edge of the grid at the same depth into the claimed top border band, so the
claim (a band along the whole top edge whose value depends only on depth)
gives them equal positive values; the code gives `72.9` at column 10 but `0`
at column 30, because the top- and bottom-band writes only cover columns
`c < vl_a = 20`. -/
theorem C5_counterexample :
    Bgrid 0 10 = 729 / 10 ∧ Bgrid 0 30 = 0 ∧ Bgrid 0 10 ≠ Bgrid 0 30 := by
  have h10 : Bgrid 0 10 = sB 9 := rfl
  have h30 : Bgrid 0 30 = 0 := rfl
  have hs : sB 9 = 729 / 10 := by norm_num [sB, bthick]
  refine ⟨h10.trans hs, h30, ?_⟩
  rw [h10, h30, hs]
  norm_num

set_option maxHeartbeats 4000000 in
/-- C5 (amended): within the 50×50 grid, the dissipation `B` is zero in the
interior and consists of cubic-ramp border bands of width 10 — along the whole
left edge, and along the top and bottom edges only for columns `c < vl_a = 20`
(the columns left of the potential wall); the right edge stays zero; in the
overlap corners the write of the later loop iteration (larger ramp index)
wins. -/
theorem C5_border_bands : ∀ r < 50, ∀ c < 50, Bgrid r c = amendedB r c := by
  intro r hr c hc
  rw [Bgrid_eq]
  rw [bwrite_eval, bwrite_eval, bwrite_eval, bwrite_eval, bwrite_eval,
    bwrite_eval, bwrite_eval, bwrite_eval, bwrite_eval, bwrite_eval]
  unfold amendedB bthick vl_a
  split_ifs <;> first | rfl | (congr 1; omega) | (exfalso; omega)

/-- Witness for C5 (amended) at cell `(0, 0)` (top-left corner). -/
theorem C5_witness : (0 : ℕ) < 50 ∧ Bgrid 0 0 = amendedB 0 0 :=
  ⟨by omega, C5_border_bands 0 (by omega) 0 (by omega)⟩

end Quantum
